import Mathlib

/-!
Verification of the price-aggregation core of the label-agent repository.

We shallow-embed the two algorithmic modules the claims are about:

* `pricing_tools/pricing_model.py` — the price normalizer `_normalize_price`
  and the aggregator `get_best_price` (Discogs / eBay / WebSearch adapters).
* `app/pricing.py` — the pricing-rules engine `apply_pricing_rules`.

Modelling conventions:

* Python `Decimal`/`float`/`int` values are modelled as exact rationals
  (`Rat`).  All concrete values exercised by the claims are exactly
  representable, and Python's `round` (half-to-even) is modelled as
  half-to-even on rationals.
* Python `None`/exceptions: adapters return `Except Unit PyVal`; a raised
  exception is `.error ()` (caught by the aggregator's `try/except`).
* Python dicts are association lists preserving insertion order; updating
  an existing key keeps its position, a new key is appended, exactly as
  CPython dicts behave.
* The aggregator is instrumented: `get_best_price` additionally returns the
  list of adapters it invoked, in call order, so that "adapter X is never
  called" claims are statable.
* `Decimal(str)` parsing is modelled for finite numeric literals
  (sign, digits, decimal point, exponent, underscore removal, surrounding
  whitespace); the special literals Infinity/NaN are treated as parse
  failures (a NaN input also yields absence in the source, since the
  `val > 0` comparison raises and is caught).
-/

/-- Characters treated as whitespace by Python's `str.strip()` (ASCII part). -/
def isPySpace (c : Char) : Bool :=
  c = ' ' || c = '\t' || c = '\n' || c = '\r' || c = '\x0b' || c = '\x0c'

/-- Python `str.strip()`: drop leading and trailing whitespace. -/
def pyStrip (s : String) : String :=
  ⟨((s.data.dropWhile isPySpace).reverse.dropWhile isPySpace).reverse⟩

/-- `value.replace("$", "").replace(",", "")` from `_normalize_price`. -/
def stripMoneyChars (s : String) : String :=
  ⟨s.data.filter (fun c => c != '$' && c != ',')⟩

/-- Numeric value of a digit run, most significant first. -/
def digitsToNat (ds : List Char) : Nat :=
  ds.foldl (fun a c => 10 * a + (c.toNat - '0'.toNat)) 0

/-- Optional leading sign; returns whether the value is negated. -/
def parseSign : List Char → Bool × List Char
  | '+' :: rest => (false, rest)
  | '-' :: rest => (true, rest)
  | cs => (false, cs)

/-- `10^e` for a signed exponent. -/
def ratPow10 (e : Int) : Rat :=
  if 0 ≤ e then (10 : Rat) ^ e.toNat else 1 / (10 : Rat) ^ (-e).toNat

def applySign (neg : Bool) (q : Rat) : Rat := if neg then -q else q

/-- Exponent suffix of a `Decimal` literal: empty, or `[eE][+-]?digits`. -/
def parseExp : List Char → Option Int
  | [] => some 0
  | c :: rest =>
    if c = 'e' || c = 'E' then
      match parseSign rest with
      | (neg, r1) =>
        let ed := r1.takeWhile Char.isDigit
        let r2 := r1.dropWhile Char.isDigit
        if ed.isEmpty || !r2.isEmpty then none
        else some (if neg then -(digitsToNat ed : Int) else (digitsToNat ed : Int))
    else none

/-- Core of `Decimal(str)` on a cleaned character list:
`sign? (digits ('.' digits?)? | '.' digits) exponent?`.  Returns the parts
(negated?, integer digits value, fraction value, fraction length,
exponent). -/
def scanDecimal (cs : List Char) : Option (Bool × Nat × Nat × Nat × Int) :=
  match parseSign cs with
  | (neg, cs1) =>
    let ip := cs1.takeWhile Char.isDigit
    let cs2 := cs1.dropWhile Char.isDigit
    match cs2 with
    | '.' :: rest =>
      let fp := rest.takeWhile Char.isDigit
      let cs3 := rest.dropWhile Char.isDigit
      if ip.isEmpty && fp.isEmpty then Option.none
      else (parseExp cs3).map fun e => (neg, digitsToNat ip, digitsToNat fp, fp.length, e)
    | _ =>
      if ip.isEmpty then Option.none
      else (parseExp cs2).map fun e => (neg, digitsToNat ip, 0, 0, e)

/-- Numeric value of the scanned parts of a decimal literal. -/
def decValue (t : Bool × Nat × Nat × Nat × Int) : Rat :=
  applySign t.1 (((t.2.1 : Rat) + (t.2.2.1 : Rat) / (10 : Rat) ^ t.2.2.2.1) * ratPow10 t.2.2.2.2)

/-- `Decimal(str)` for finite numeric literals: CPython strips surrounding
whitespace and removes underscores before parsing. -/
def parseDecimal (s : String) : Option Rat :=
  (scanDecimal ((pyStrip s).data.filter (fun c => c != '_'))).map decValue

/-- A Python value reaching `_normalize_price`: `None`, a string, or a
number (`int`/`float`/`Decimal`, modelled exactly). -/
inductive PyVal where
  | none : PyVal
  | str (s : String) : PyVal
  | num (q : Rat) : PyVal
deriving Repr, DecidableEq

/-- `pricing_model._normalize_price`: strip `$` and `,` and whitespace from
strings, convert to `Decimal`, keep only strictly positive values; any
failure yields `None`. -/
def _normalize_price (v : PyVal) : Option Rat :=
  match v with
  | .none => Option.none
  | .str s =>
    match parseDecimal (pyStrip (stripMoneyChars s)) with
    | some q => if 0 < q then some q else Option.none
    | Option.none => Option.none
  | .num q => if 0 < q then some q else Option.none

/-- Python `round(q)`: round half to even, to an integer. -/
def pyRoundInt (q : Rat) : Int :=
  let f := ⌊q⌋
  let r := q - (f : Rat)
  if r < 1/2 then f
  else if 1/2 < r then f + 1
  else if f % 2 = 0 then f else f + 1

/-- Python `round(q, 2)`: round half to even at two decimal places. -/
def roundTo2 (q : Rat) : Rat := (pyRoundInt (q * 100) : Rat) / 100

/-- The three source adapters seen by `get_best_price`, as oracles: each call
either raises (`.error`) or returns a Python value.  The signatures mirror the
call sites: `get_discogs_price(title, artist)`, `get_ebay_price(title,
category)`, `get_web_price(title)`. -/
structure Adapters where
  discogs : String → Option String → Except Unit PyVal
  ebay : String → String → Except Unit PyVal
  web : String → Except Unit PyVal

/-- The dictionary returned by `get_best_price`. -/
structure AggResult where
  sources : List (String × Rat)
  final_price : Option Rat
  note : Option String
deriving Repr, DecidableEq

/-- One guarded adapter call: the `try ... p = _normalize_price(...)` blocks;
a raised exception is caught and contributes nothing, and `if p:` holds
exactly when normalization produced a (positive) value. -/
def adapterResult : Except Unit PyVal → Option Rat
  | .error _ => Option.none
  | .ok v => _normalize_price v

/-- The fixed weight table `{"eBay": 0.75, "WebSearch": 0.25}`; other keys
never occur among the fallback sources. -/
def fallbackWeight (k : String) : Rat :=
  if k = "eBay" then 3/4 else if k = "WebSearch" then 1/4 else 0

/-- `pricing_model.get_best_price`, instrumented with the list of adapters
invoked (in call order).  Mirrors the source: Discogs first and
unconditionally; if its normalized result is truthy, return at once;
otherwise call eBay then WebSearch and take the weight-renormalized average
of whatever was found, rounded to two decimals. -/
def get_best_price (A : Adapters) (title : String) (artist : Option String)
    (category : String) : AggResult × List String :=
  match adapterResult (A.discogs title artist) with
  | some p =>
    ({ sources := [("Discogs", p)], final_price := some p,
       note := some "Discogs authoritative source used." }, ["Discogs"])
  | Option.none =>
    let ep := adapterResult (A.ebay title category)
    let wp := adapterResult (A.web title)
    let srcs : List (String × Rat) :=
      (match ep with | some p => [("eBay", p)] | Option.none => []) ++
      (match wp with | some p => [("WebSearch", p)] | Option.none => [])
    if srcs.isEmpty then
      ({ sources := [], final_price := Option.none, note := some "No prices found" },
       ["Discogs", "eBay", "WebSearch"])
    else
      let total_w := (srcs.map (fun kv => fallbackWeight kv.1)).sum
      let weighted_sum := (srcs.map (fun kv => kv.2 * fallbackWeight kv.1)).sum
      let weighted_avg :=
        if 0 < total_w then some (roundTo2 (weighted_sum / total_w)) else Option.none
      ({ sources := srcs, final_price := weighted_avg, note := Option.none },
       ["Discogs", "eBay", "WebSearch"])

/-- A value stored in the `fields` dict of `apply_pricing_rules`: a string or
a number (`int`/`float`, modelled exactly). -/
inductive FieldVal where
  | strV (s : String) : FieldVal
  | numV (q : Rat) : FieldVal
deriving Repr, DecidableEq

/-- `fields.get(key, "")`. -/
def dictGet (fields : List (String × FieldVal)) (k : String) : FieldVal :=
  match fields.find? (fun kv => kv.1 == k) with
  | some kv => kv.2
  | Option.none => .strV ""

/-- `fields[key] = v` on a CPython dict: an existing key keeps its position,
a new key is appended. -/
def dictSet (fields : List (String × FieldVal)) (k : String) (v : FieldVal) :
    List (String × FieldVal) :=
  if fields.any (fun kv => kv.1 == k) then
    fields.map (fun kv => if kv.1 == k then (k, v) else kv)
  else fields ++ [(k, v)]

/-- `re.search(r"(\d+(\.\d+)?)", val)`: leftmost match, greedy digit runs;
the fractional part is taken only when a dot is directly followed by a
digit.  Returns (integer part, fraction digits value, fraction length). -/
def scanNumber : List Char → Option (Nat × Nat × Nat)
  | [] => Option.none
  | c :: rest =>
    if c.isDigit then
      let ip := (c :: rest).takeWhile Char.isDigit
      let r1 := (c :: rest).dropWhile Char.isDigit
      match r1 with
      | '.' :: r2 =>
        let fp := r2.takeWhile Char.isDigit
        if fp.isEmpty then some (digitsToNat ip, 0, 0)
        else some (digitsToNat ip, digitsToNat fp, fp.length)
      | _ => some (digitsToNat ip, 0, 0)
    else scanNumber rest

/-- `float(match.group(1))`: the numeric value of the regex match. -/
def extractNumber (cs : List Char) : Option Rat :=
  (scanNumber cs).map fun t => (t.1 : Rat) + (t.2.1 : Rat) / (10 : Rat) ^ t.2.2

/-- `val.strip().startswith("$")`: is the stripped string's first character
the currency symbol? -/
def startsWithDollar (s : String) : Bool :=
  match (pyStrip s).data with
  | '$' :: _ => true
  | _ => false

/-- The dict key holding the price: `"Price" if type_ == "comic" else
"Final Price"`. -/
def priceKey (type_ : String) : String :=
  if type_ = "comic" then "Price" else "Final Price"

/-- The floor block of `apply_pricing_rules`: only `comic` (minimum 4) and
`card` (minimum 1) have floors. -/
def applyFloors (type_ : String) (q : Rat) : Rat :=
  let q1 := if type_ = "comic" ∧ q < 4 then 4 else q
  if type_ = "card" ∧ q1 < 1 then 1 else q1

/-- The rounding block of `apply_pricing_rules`: above 5, round up to the
next whole unit unless already whole (`int(num)` truncates; here the value
is positive so truncation is the floor); at or below 5, round the doubled
value half-to-even and halve. -/
def roundPolicy (q : Rat) : Rat :=
  if 5 < q then (if q.den = 1 then q else (⌊q⌋ : Rat) + 1)
  else (pyRoundInt (q * 2) : Rat) / 2

/-- Two-digit zero-padded cents. -/
def pad2 (n : Nat) : String :=
  if n < 10 then "0" ++ toString n else toString n

/-- Render a signed cent count as a fixed-two-decimal numeral. -/
def fmtCents (c : Int) : String :=
  (if c < 0 then "-" else "") ++ toString (c.natAbs / 100) ++ "." ++ pad2 (c.natAbs % 100)

/-- `f"{num:.2f}"`: fixed two-decimal formatting (round half to even; at
every call site the value is a whole or half unit, so the rounding is
exact). -/
def fmtFixed2 (q : Rat) : String :=
  fmtCents (pyRoundInt (q * 100))

/-- `app/pricing.apply_pricing_rules` (an `async def`; awaiting is
irrelevant to its value).  Already-formatted currency strings pass through;
otherwise the first numeric substring (or the numeric value itself) is
floored and rounded and written back, and when nothing parses the fixed
minimum for the category is written. -/
def apply_pricing_rules (type_ : String) (fields : List (String × FieldVal)) :
    List (String × FieldVal) :=
  let key := priceKey type_
  let val := dictGet fields key
  let isFormatted :=
    match val with
    | .strV s => startsWithDollar s
    | .numV _ => false
  if isFormatted then fields
  else
    let num : Option Rat :=
      match val with
      | .numV q => some q
      | .strV s => extractNumber s.data
    match num with
    | some n =>
      let n1 := applyFloors type_ n
      let n2 := roundPolicy n1
      dictSet fields key (.strV ("$" ++ fmtFixed2 n2))
    | Option.none =>
      dictSet fields key (.strV (if type_ = "comic" then "$4.00" else "$1.00"))

/-! ## Concrete adapter families used in witnesses and counterexamples -/

def Aw1 : Adapters :=
  ⟨fun _ _ => .ok (.str "12.00"), fun _ _ => .ok (.str "5.00"), fun _ => .ok (.str "6.00")⟩

def Ac2 : Adapters :=
  ⟨fun _ _ => .ok (.str "12.00"), fun _ _ => .ok (.str "5.00"), fun _ => .ok (.str "6.00")⟩

def Aw2 : Adapters :=
  ⟨fun _ _ => .error (), fun _ _ => .ok (.str "5.00"), fun _ => .ok (.str "6.00")⟩

def Ac3 : Adapters :=
  ⟨fun _ _ => .error (), fun _ _ => .ok (.str "10.001"), fun _ => .error ()⟩

def Aw3 : Adapters :=
  ⟨fun _ _ => .error (), fun _ _ => .ok (.str "10.00"), fun _ => .ok (.str "20.00")⟩

def Ac4a : Adapters :=
  ⟨fun _ _ => .ok (.str "10.001"), fun _ _ => .error (), fun _ => .error ()⟩

def Ac4b : Adapters :=
  ⟨fun _ _ => .error (), fun _ _ => .ok (.str "0.001"), fun _ => .error ()⟩

def Aw4 : Adapters :=
  ⟨fun _ _ => .error (), fun _ _ => .ok (.str "10.00"), fun _ => .error ()⟩

def Aw5 : Adapters := ⟨fun _ _ => .error (), fun _ _ => .error (), fun _ => .error ()⟩

/-! ## Helper lemmas -/

/-- A normalized price is strictly positive. -/
theorem normalize_pos (v : PyVal) (p : Rat) (h : _normalize_price v = some p) : 0 < p := by
  unfold _normalize_price at h
  split at h
  · cases h
  · split at h
    · split at h
      · rename_i h0
        cases h
        exact h0
      · cases h
    · cases h
  · split at h
    · rename_i h0
      cases h
      exact h0
    · cases h

/-- A price contributed by an adapter call is strictly positive. -/
theorem adapterResult_pos (r : Except Unit PyVal) (p : Rat)
    (h : adapterResult r = some p) : 0 < p := by
  cases r with
  | error e => simp [adapterResult] at h
  | ok v => exact normalize_pos v p h

/-- `pyRoundInt` of a nonnegative value is nonnegative. -/
theorem pyRoundInt_nonneg (q : Rat) (h : 0 ≤ q) : 0 ≤ pyRoundInt q := by
  have hf : (0 : Int) ≤ ⌊q⌋ := Int.floor_nonneg.mpr h
  simp only [pyRoundInt]
  split
  · exact hf
  · split
    · omega
    · split <;> omega

/-- `pyRoundInt` of a nonpositive value is nonpositive. -/
theorem pyRoundInt_nonpos (q : Rat) (h : q ≤ 0) : pyRoundInt q ≤ 0 := by
  have hf0 : ⌊q⌋ ≤ 0 := by
    have := Int.floor_mono h
    simpa using this
  simp only [pyRoundInt]
  split
  · exact hf0
  · rename_i h1
    have h2 : 1/2 ≤ q - (⌊q⌋ : Rat) := not_lt.mp h1
    have h3 : (⌊q⌋ : Rat) < 0 := by linarith
    have h4 : ⌊q⌋ < 0 := by exact_mod_cast h3
    split
    · omega
    · split <;> omega

/-- `pyRoundInt` is within a half unit of its argument. -/
theorem pyRoundInt_near (q : Rat) : |(pyRoundInt q : Rat) - q| ≤ 1/2 := by
  have h0 : (⌊q⌋ : Rat) ≤ q := Int.floor_le q
  have h1 : q < (⌊q⌋ : Rat) + 1 := Int.lt_floor_add_one q
  simp only [pyRoundInt]
  split
  · rename_i hlt
    rw [abs_le]
    constructor <;> linarith
  · rename_i hge
    have hge' : 1/2 ≤ q - (⌊q⌋ : Rat) := not_lt.mp hge
    split
    · rw [abs_le]
      constructor <;> push_cast <;> linarith
    · split <;> (rw [abs_le]; constructor <;> push_cast <;> linarith)

/-- When `pyRoundInt` lands exactly half a unit away, the result is even. -/
theorem pyRoundInt_tie_even (q : Rat) (h : |(pyRoundInt q : Rat) - q| = 1/2) :
    pyRoundInt q % 2 = 0 := by
  have h0 : (⌊q⌋ : Rat) ≤ q := Int.floor_le q
  have h1 : q < (⌊q⌋ : Rat) + 1 := Int.lt_floor_add_one q
  by_cases hA : q - (⌊q⌋ : Rat) < 1/2
  · exfalso
    rw [show pyRoundInt q = ⌊q⌋ from by simp only [pyRoundInt]; rw [if_pos hA]] at h
    rcases abs_eq (by norm_num : (0:Rat) ≤ 1/2) |>.mp h with h2 | h2 <;> linarith
  · by_cases hB : 1/2 < q - (⌊q⌋ : Rat)
    · exfalso
      rw [show pyRoundInt q = ⌊q⌋ + 1 from by
        simp only [pyRoundInt]; rw [if_neg hA, if_pos hB]] at h
      rcases abs_eq (by norm_num : (0:Rat) ≤ 1/2) |>.mp h with h2 | h2 <;>
        (push_cast at h2; linarith)
    · have hrw : pyRoundInt q = if ⌊q⌋ % 2 = 0 then ⌊q⌋ else ⌊q⌋ + 1 := by
        simp only [pyRoundInt]
        rw [if_neg hA, if_neg hB]
      rw [hrw]
      split
      · assumption
      · omega

/-- Unfolding of `get_best_price` when the Discogs call yields a usable
price: authoritative short-circuit. -/
theorem gbp_discogs_hit (A : Adapters) (t c : String) (a : Option String) (p : Rat)
    (h : adapterResult (A.discogs t a) = some p) :
    get_best_price A t a c =
      ({ sources := [("Discogs", p)], final_price := some p,
         note := some "Discogs authoritative source used." }, ["Discogs"]) := by
  simp only [get_best_price]
  rw [h]

/-- Unfolding of `get_best_price` when every adapter contributes nothing. -/
theorem gbp_all_absent (A : Adapters) (t c : String) (a : Option String)
    (hd : adapterResult (A.discogs t a) = Option.none)
    (he : adapterResult (A.ebay t c) = Option.none)
    (hw : adapterResult (A.web t) = Option.none) :
    get_best_price A t a c =
      ({ sources := [], final_price := Option.none, note := some "No prices found" },
       ["Discogs", "eBay", "WebSearch"]) := by
  simp only [get_best_price]
  rw [hd, he, hw]
  simp

/-- Unfolding of `get_best_price` when Discogs is absent and both fallback
adapters contribute. -/
theorem gbp_both (A : Adapters) (t c : String) (a : Option String) (x y : Rat)
    (hd : adapterResult (A.discogs t a) = Option.none)
    (he : adapterResult (A.ebay t c) = some x)
    (hw : adapterResult (A.web t) = some y) :
    get_best_price A t a c =
      ({ sources := [("eBay", x), ("WebSearch", y)],
         final_price := some (roundTo2 ((x * (3/4) + y * (1/4)) / (3/4 + 1/4))),
         note := Option.none }, ["Discogs", "eBay", "WebSearch"]) := by
  simp only [get_best_price]
  rw [hd, he, hw]
  norm_num [fallbackWeight, show ("WebSearch" : String) ≠ "eBay" from by decide]

/-- Unfolding of `get_best_price` when only eBay contributes. -/
theorem gbp_ebay_only (A : Adapters) (t c : String) (a : Option String) (x : Rat)
    (hd : adapterResult (A.discogs t a) = Option.none)
    (he : adapterResult (A.ebay t c) = some x)
    (hw : adapterResult (A.web t) = Option.none) :
    get_best_price A t a c =
      ({ sources := [("eBay", x)], final_price := some (roundTo2 x),
         note := Option.none }, ["Discogs", "eBay", "WebSearch"]) := by
  simp only [get_best_price]
  rw [hd, he, hw]
  norm_num [fallbackWeight]

/-- Unfolding of `get_best_price` when only the web search contributes. -/
theorem gbp_web_only (A : Adapters) (t c : String) (a : Option String) (y : Rat)
    (hd : adapterResult (A.discogs t a) = Option.none)
    (he : adapterResult (A.ebay t c) = Option.none)
    (hw : adapterResult (A.web t) = some y) :
    get_best_price A t a c =
      ({ sources := [("WebSearch", y)], final_price := some (roundTo2 y),
         note := Option.none }, ["Discogs", "eBay", "WebSearch"]) := by
  simp only [get_best_price]
  rw [hd, he, hw]
  norm_num [fallbackWeight, show ("WebSearch" : String) ≠ "eBay" from by decide]

/-- Unfolding of `apply_pricing_rules` on a numeric field value. -/
theorem apply_rules_of_num (t : String) (fs : List (String × FieldVal)) (q : Rat)
    (h : dictGet fs (priceKey t) = .numV q) :
    apply_pricing_rules t fs =
      dictSet fs (priceKey t) (.strV ("$" ++ fmtFixed2 (roundPolicy (applyFloors t q)))) := by
  simp only [apply_pricing_rules]
  rw [h]
  simp

/-- Unfolding of `apply_pricing_rules` on an unformatted string field from
which a number is extracted. -/
theorem apply_rules_of_str (t : String) (fs : List (String × FieldVal)) (s : String) (q : Rat)
    (h : dictGet fs (priceKey t) = .strV s)
    (hf : startsWithDollar s = false) (hq : extractNumber s.data = some q) :
    apply_pricing_rules t fs =
      dictSet fs (priceKey t) (.strV ("$" ++ fmtFixed2 (roundPolicy (applyFloors t q)))) := by
  simp only [apply_pricing_rules]
  rw [h]
  simp [hf, hq]

/-- Unfolding of `apply_pricing_rules` on an already-formatted currency
string: the fields pass through unchanged. -/
theorem apply_rules_formatted (t : String) (fs : List (String × FieldVal)) (s : String)
    (h : dictGet fs (priceKey t) = .strV s) (hf : startsWithDollar s = true) :
    apply_pricing_rules t fs = fs := by
  simp only [apply_pricing_rules]
  rw [h]
  simp [hf]

/-- Unfolding of `apply_pricing_rules` when no number can be extracted: the
fixed category minimum is written. -/
theorem apply_rules_noparse (t : String) (fs : List (String × FieldVal)) (s : String)
    (h : dictGet fs (priceKey t) = .strV s)
    (hf : startsWithDollar s = false) (hq : extractNumber s.data = Option.none) :
    apply_pricing_rules t fs =
      dictSet fs (priceKey t) (.strV (if t = "comic" then "$4.00" else "$1.00")) := by
  simp only [apply_pricing_rules]
  rw [h]
  simp [hf, hq]

/-- The floor block leaves categories other than comic and card alone. -/
theorem applyFloors_other (t : String) (q : Rat) (h1 : t ≠ "comic") (h2 : t ≠ "card") :
    applyFloors t q = q := by
  simp [applyFloors, h1, h2]

/-- The comic floor raises low values to 4. -/
theorem applyFloors_comic_low (q : Rat) (h : q < 4) : applyFloors "comic" q = 4 := by
  simp [applyFloors, h, show ("comic" : String) ≠ "card" from by decide]

/-- The card floor raises low values to 1. -/
theorem applyFloors_card_low (q : Rat) (h : q < 1) : applyFloors "card" q = 1 := by
  simp [applyFloors, h, show ("card" : String) ≠ "comic" from by decide]

/-- Values above both floors are never raised, for any category. -/
theorem applyFloors_high (t : String) (q : Rat) (h1 : ¬ q < 4) (h2 : ¬ q < 1) :
    applyFloors t q = q := by
  simp [applyFloors, h1, h2]

/-- Evaluation helper: normalization of a concrete string succeeds once its
decimal scan and value are exhibited. -/
theorem normalize_str_of_scan (s : String) (t : Bool × Nat × Nat × Nat × Int) (q : Rat)
    (hscan : scanDecimal ((pyStrip (pyStrip (stripMoneyChars s))).data.filter
      (fun c => c != '_')) = some t)
    (hval : decValue t = q) (hpos : 0 < q) :
    _normalize_price (.str s) = some q := by
  simp only [_normalize_price, parseDecimal, hscan, Option.map]
  rw [hval, if_pos hpos]

/-- Evaluation helper: `adapterResult` on a successful call is plain
normalization. -/
theorem adapterResult_ok (v : PyVal) : adapterResult (Except.ok v) = _normalize_price v := rfl

/-! ## The claims -/

/-- C1: whenever the Discogs adapter yields a value that normalizes to a
positive amount `p`, `get_best_price` returns immediately with
`final_price = p`, `sources = {"Discogs": p}`, the authoritative note, and
with Discogs as the only adapter invoked (eBay and WebSearch are never
called). -/
theorem C1_authoritative_short_circuit (A : Adapters) (t c : String) (a : Option String)
    (v : PyVal) (p : Rat)
    (hcall : A.discogs t a = Except.ok v) (hnorm : _normalize_price v = some p) :
    get_best_price A t a c =
      ({ sources := [("Discogs", p)], final_price := some p,
         note := some "Discogs authoritative source used." }, ["Discogs"]) := by
  apply gbp_discogs_hit
  rw [hcall, adapterResult_ok]
  exact hnorm


/-- C1 witness: a concrete adapter family where Discogs answers 12.00. -/
theorem C1_witness :
    _normalize_price (.str "12.00") = some 12 ∧
    get_best_price Aw1 "Abbey Road" (some "The Beatles") "media" =
      ({ sources := [("Discogs", 12)], final_price := some 12,
         note := some "Discogs authoritative source used." }, ["Discogs"]) := by
  have hn : _normalize_price (.str "12.00") = some 12 :=
    normalize_str_of_scan "12.00" (false, 12, 0, 2, 0) 12 (by decide)
      (by norm_num [decValue, applySign, ratPow10]) (by norm_num)
  exact ⟨hn, C1_authoritative_short_circuit Aw1 "Abbey Road" "media" (some "The Beatles")
    (.str "12.00") 12 rfl hn⟩


/-- C2 counterexample: for the non-media category "comic" the code still
consults Discogs, invokes no other adapter, and lets the Discogs result
determine `final_price` — contradicting the claim that the authoritative
adapter is consulted only for media queries and that only the remaining
adapters are called otherwise. -/
theorem C2_counterexample :
    (get_best_price Ac2 "X-Men 1" Option.none "comic").2 = ["Discogs"] ∧
    (get_best_price Ac2 "X-Men 1" Option.none "comic").1.final_price = some 12 ∧
    "eBay" ∉ (get_best_price Ac2 "X-Men 1" Option.none "comic").2 := by
  have hn : adapterResult (Ac2.discogs "X-Men 1" Option.none) = some 12 := by
    rw [show Ac2.discogs "X-Men 1" Option.none = Except.ok (.str "12.00") from rfl,
      adapterResult_ok]
    exact normalize_str_of_scan "12.00" (false, 12, 0, 2, 0) 12 (by decide)
      (by norm_num [decValue, applySign, ratPow10]) (by norm_num)
  rw [gbp_discogs_hit Ac2 "X-Men 1" "comic" Option.none 12 hn]
  exact ⟨rfl, rfl, by decide⟩

/-- C2 (amended): the Discogs adapter is consulted first for every query
regardless of category, and its short-circuit applies to all categories:
when it yields a normalized price `p` it is the only adapter invoked and
`final_price = p`; when it yields nothing, exactly the eBay and WebSearch
adapters are additionally invoked. -/
theorem C2_amended_discogs_first (A : Adapters) (t c : String) (a : Option String) :
    (∀ p : Rat, adapterResult (A.discogs t a) = some p →
        (get_best_price A t a c).2 = ["Discogs"] ∧
        (get_best_price A t a c).1.final_price = some p) ∧
    (adapterResult (A.discogs t a) = Option.none →
        (get_best_price A t a c).2 = ["Discogs", "eBay", "WebSearch"]) := by
  constructor
  · intro p hp
    rw [gbp_discogs_hit A t c a p hp]
    exact ⟨rfl, rfl⟩
  · intro hd
    rcases he : adapterResult (A.ebay t c) with _ | x <;>
      rcases hw : adapterResult (A.web t) with _ | y
    · rw [gbp_all_absent A t c a hd he hw]
    · rw [gbp_web_only A t c a y hd he hw]
    · rw [gbp_ebay_only A t c a x hd he hw]
    · rw [gbp_both A t c a x y hd he hw]


/-- C2 (amended) witness: Discogs hit on one family, Discogs miss on
another. -/
theorem C2_amended_witness :
    (get_best_price Ac2 "t" Option.none "comic").2 = ["Discogs"] ∧
    (get_best_price Ac2 "t" Option.none "comic").1.final_price = some 12 ∧
    (get_best_price Aw2 "t" Option.none "comic").2 = ["Discogs", "eBay", "WebSearch"] := by
  have hn : adapterResult (Ac2.discogs "t" Option.none) = some 12 := by
    rw [show Ac2.discogs "t" Option.none = Except.ok (.str "12.00") from rfl, adapterResult_ok]
    exact normalize_str_of_scan "12.00" (false, 12, 0, 2, 0) 12 (by decide)
      (by norm_num [decValue, applySign, ratPow10]) (by norm_num)
  obtain ⟨h1, h2⟩ := (C2_amended_discogs_first Ac2 "t" "comic" Option.none).1 12 hn
  exact ⟨h1, h2, (C2_amended_discogs_first Aw2 "t" "comic" Option.none).2 rfl⟩

/-- C5: `get_best_price` is a total function (the model of "never raises"),
and when every adapter yields absence it returns exactly
`{"sources": {}, "final_price": None, "note": "No prices found"}` with a
non-empty note. -/
theorem C5_all_absent_graceful (A : Adapters) (t c : String) (a : Option String)
    (hd : adapterResult (A.discogs t a) = Option.none)
    (he : adapterResult (A.ebay t c) = Option.none)
    (hw : adapterResult (A.web t) = Option.none) :
    (get_best_price A t a c).1 =
      { sources := [], final_price := Option.none, note := some "No prices found" } ∧
    "No prices found" ≠ "" := by
  rw [gbp_all_absent A t c a hd he hw]
  exact ⟨rfl, by decide⟩


/-- C5 witness: all three adapters raise; the result is the empty
aggregation with its explanatory note. -/
theorem C5_witness :
    (get_best_price Aw5 "ghost item" Option.none "general").1 =
      { sources := [], final_price := Option.none, note := some "No prices found" } ∧
    "No prices found" ≠ "" :=
  C5_all_absent_graceful Aw5 "ghost item" "general" Option.none rfl rfl rfl

/-- Rounding to two decimals preserves nonnegativity. -/
theorem roundTo2_nonneg (z : Rat) (h : 0 ≤ z) : 0 ≤ roundTo2 z := by
  have hn := pyRoundInt_nonneg (z * 100) (by positivity)
  unfold roundTo2
  exact div_nonneg (by exact_mod_cast hn) (by norm_num)


/-- C3 counterexample: with eBay as the only present source and a
normalized amount of 10.001, the final price is the rounded 10.00, not the
amount itself — the claim that a single present source is returned
unchanged fails. -/
theorem C3_counterexample :
    (get_best_price Ac3 "item" Option.none "general").1.sources = [("eBay", 10001/1000)] ∧
    (get_best_price Ac3 "item" Option.none "general").1.final_price = some 10 ∧
    (10 : Rat) ≠ 10001/1000 := by
  have he : adapterResult (Ac3.ebay "item" "general") = some (10001/1000) := by
    rw [show Ac3.ebay "item" "general" = Except.ok (.str "10.001") from rfl, adapterResult_ok]
    exact normalize_str_of_scan "10.001" (false, 10, 1, 3, 0) (10001/1000) (by decide)
      (by norm_num [decValue, applySign, ratPow10]) (by norm_num)
  rw [gbp_ebay_only Ac3 "item" "general" Option.none (10001/1000) rfl he rfl]
  refine ⟨rfl, ?_, by norm_num⟩
  norm_num [roundTo2, pyRoundInt]

/-- C3 (amended): when Discogs contributes nothing, `final_price` is the
weighted sum of the present fallback amounts divided by the sum of the
present weights (eBay 0.75, WebSearch 0.25), rounded to two decimals; with
a single present source this is that amount rounded to two decimals, and
with no present source it is absent. -/
theorem C3_amended_weighted_fallback (A : Adapters) (t c : String) (a : Option String)
    (hd : adapterResult (A.discogs t a) = Option.none) :
    (get_best_price A t a c).1.final_price =
      match adapterResult (A.ebay t c), adapterResult (A.web t) with
      | some x, some y => some (roundTo2 ((x * (3/4) + y * (1/4)) / (3/4 + 1/4)))
      | some x, Option.none => some (roundTo2 x)
      | Option.none, some y => some (roundTo2 y)
      | Option.none, Option.none => Option.none := by
  rcases he : adapterResult (A.ebay t c) with _ | x <;>
    rcases hw : adapterResult (A.web t) with _ | y
  · rw [gbp_all_absent A t c a hd he hw]
  · rw [gbp_web_only A t c a y hd he hw]
  · rw [gbp_ebay_only A t c a x hd he hw]
  · rw [gbp_both A t c a x y hd he hw]


/-- C3 (amended) witness: eBay 10.00 and WebSearch 20.00 give 12.50. -/
theorem C3_witness :
    adapterResult (Aw3.discogs "t" Option.none) = Option.none ∧
    (get_best_price Aw3 "t" Option.none "general").1.final_price = some (25/2) := by
  have he : adapterResult (Aw3.ebay "t" "general") = some 10 := by
    rw [show Aw3.ebay "t" "general" = Except.ok (.str "10.00") from rfl, adapterResult_ok]
    exact normalize_str_of_scan "10.00" (false, 10, 0, 2, 0) 10 (by decide)
      (by norm_num [decValue, applySign, ratPow10]) (by norm_num)
  have hw : adapterResult (Aw3.web "t") = some 20 := by
    rw [show Aw3.web "t" = Except.ok (.str "20.00") from rfl, adapterResult_ok]
    exact normalize_str_of_scan "20.00" (false, 20, 0, 2, 0) 20 (by decide)
      (by norm_num [decValue, applySign, ratPow10]) (by norm_num)
  have h := C3_amended_weighted_fallback Aw3 "t" "general" Option.none rfl
  rw [he, hw] at h
  refine ⟨rfl, ?_⟩
  rw [h]
  norm_num [roundTo2, pyRoundInt]



/-- C4 counterexample: an authoritative Discogs amount of 10.001 becomes a
`final_price` that does not have exactly two fractional digits, and a lone
eBay amount of 0.001 rounds to a `final_price` of 0, which is not
positive. -/
theorem C4_counterexample :
    ((get_best_price Ac4a "t" Option.none "media").1.final_price = some (10001/1000) ∧
      ¬ ∃ n : Int, (10001/1000 : Rat) = (n : Rat) / 100) ∧
    ((get_best_price Ac4b "t" Option.none "general").1.final_price = some 0 ∧
      ¬ (0 : Rat) > 0) := by
  have hd : adapterResult (Ac4a.discogs "t" Option.none) = some (10001/1000) := by
    rw [show Ac4a.discogs "t" Option.none = Except.ok (.str "10.001") from rfl, adapterResult_ok]
    exact normalize_str_of_scan "10.001" (false, 10, 1, 3, 0) (10001/1000) (by decide)
      (by norm_num [decValue, applySign, ratPow10]) (by norm_num)
  have he : adapterResult (Ac4b.ebay "t" "general") = some (1/1000) := by
    rw [show Ac4b.ebay "t" "general" = Except.ok (.str "0.001") from rfl, adapterResult_ok]
    exact normalize_str_of_scan "0.001" (false, 0, 1, 3, 0) (1/1000) (by decide)
      (by norm_num [decValue, applySign, ratPow10]) (by norm_num)
  refine ⟨⟨?_, ?_⟩, ⟨?_, by norm_num⟩⟩
  · rw [gbp_discogs_hit Ac4a "t" "media" Option.none (10001/1000) hd]
  · rintro ⟨n, hn⟩
    rw [div_eq_div_iff (by norm_num) (by norm_num)] at hn
    have hn' : (1000100 : Int) = n * 1000 := by exact_mod_cast hn
    omega
  · rw [gbp_ebay_only Ac4b "t" "general" Option.none (1/1000) rfl he rfl]
    norm_num [roundTo2, pyRoundInt]

/-- C4 (amended): a present `final_price` is either exactly the normalized
Discogs amount (authoritative case: strictly positive, not re-rounded, so
possibly with more than two fractional digits), or the weight-renormalized
combination of the present fallback amounts rounded to two decimals (hence
nonnegative, with at most two fractional digits). -/
theorem C4_amended_price_provenance (A : Adapters) (t c : String) (a : Option String) (q : Rat)
    (h : (get_best_price A t a c).1.final_price = some q) :
    (adapterResult (A.discogs t a) = some q ∧ 0 < q ∧
        (get_best_price A t a c).1.sources = [("Discogs", q)]) ∨
    ((get_best_price A t a c).1.sources ≠ [] ∧
        q = roundTo2
          (((get_best_price A t a c).1.sources.map fun kv => kv.2 * fallbackWeight kv.1).sum /
            ((get_best_price A t a c).1.sources.map fun kv => fallbackWeight kv.1).sum) ∧
        0 ≤ q ∧ ∃ n : Int, q = (n : Rat) / 100) := by
  rcases hd : adapterResult (A.discogs t a) with _ | p
  · rcases he : adapterResult (A.ebay t c) with _ | x <;>
      rcases hw : adapterResult (A.web t) with _ | y
    · rw [gbp_all_absent A t c a hd he hw] at h
      cases h
    · have hy : 0 < y := adapterResult_pos _ y hw
      rw [gbp_web_only A t c a y hd he hw] at h ⊢
      simp only [Option.some.injEq] at h
      subst h
      right
      refine ⟨by simp, ?_, roundTo2_nonneg y (le_of_lt hy), ⟨pyRoundInt (y * 100), rfl⟩⟩
      simp [fallbackWeight, show ("WebSearch" : String) ≠ "eBay" from by decide]
    · have hx : 0 < x := adapterResult_pos _ x he
      rw [gbp_ebay_only A t c a x hd he hw] at h ⊢
      simp only [Option.some.injEq] at h
      subst h
      right
      refine ⟨by simp, ?_, roundTo2_nonneg x (le_of_lt hx), ⟨pyRoundInt (x * 100), rfl⟩⟩
      simp [fallbackWeight]
    · have hx : 0 < x := adapterResult_pos _ x he
      have hy : 0 < y := adapterResult_pos _ y hw
      rw [gbp_both A t c a x y hd he hw] at h ⊢
      simp only [Option.some.injEq] at h
      subst h
      right
      refine ⟨by simp, ?_,
        roundTo2_nonneg _ (div_nonneg (by linarith) (by norm_num)),
        ⟨pyRoundInt ((x * (3/4) + y * (1/4)) / (3/4 + 1/4) * 100), rfl⟩⟩
      simp [fallbackWeight, show ("WebSearch" : String) ≠ "eBay" from by decide]
  · have h2 : p = q := by
      rw [gbp_discogs_hit A t c a p hd] at h
      exact Option.some.inj h
    subst h2
    left
    refine ⟨rfl, adapterResult_pos _ p hd, ?_⟩
    rw [gbp_discogs_hit A t c a p hd]


/-- C4 (amended) witness: a lone eBay source of 10.00 gives a final price
of 10 that is a rounded weighted combination, nonnegative, with at most two
fractional digits. -/
theorem C4_witness :
    (get_best_price Aw4 "t" Option.none "general").1.final_price = some 10 ∧
    (get_best_price Aw4 "t" Option.none "general").1.sources ≠ [] ∧
    0 ≤ (10 : Rat) ∧ ∃ n : Int, (10 : Rat) = (n : Rat) / 100 := by
  have he : adapterResult (Aw4.ebay "t" "general") = some 10 := by
    rw [show Aw4.ebay "t" "general" = Except.ok (.str "10.00") from rfl, adapterResult_ok]
    exact normalize_str_of_scan "10.00" (false, 10, 0, 2, 0) 10 (by decide)
      (by norm_num [decValue, applySign, ratPow10]) (by norm_num)
  have hfin : (get_best_price Aw4 "t" Option.none "general").1.final_price = some 10 := by
    rw [gbp_ebay_only Aw4 "t" "general" Option.none 10 rfl he rfl]
    norm_num [roundTo2, pyRoundInt]
  rcases C4_amended_price_provenance Aw4 "t" "general" Option.none 10 hfin with hcase | hcase
  · exact absurd hcase.1 (by simp [Aw4, adapterResult])
  · exact ⟨hfin, hcase.1, hcase.2.2.1, hcase.2.2.2⟩

/-- C6 counterexample: for category "card" the function reads and writes the
"Final Price" key, so the fields are NOT returned unchanged — the missing
"Final Price" entry is filled with the minimum and appended. -/
theorem C6_counterexample :
    apply_pricing_rules "card" [("Price", .strV "$9.00")] =
      [("Price", .strV "$9.00"), ("Final Price", .strV "$1.00")] ∧
    apply_pricing_rules "card" [("Price", .strV "$9.00")] ≠ [("Price", .strV "$9.00")] := by
  have h : apply_pricing_rules "card" [("Price", FieldVal.strV "$9.00")] =
      dictSet [("Price", FieldVal.strV "$9.00")] (priceKey "card")
        (.strV (if "card" = "comic" then "$4.00" else "$1.00")) :=
    apply_rules_noparse "card" _ "" (by decide) (by decide) (by decide)
  rw [h]
  exact ⟨by decide, by decide⟩

/-- C6 (amended): `apply_pricing_rules` is idempotent on already-formatted
prices in the field it actually reads — `"Price"` for comic, `"Final
Price"` for every other category: when that field holds a string whose
stripped form starts with `$`, the fields pass through unchanged. -/
theorem C6_amended_formatted_passthrough (type_ : String) (fields : List (String × FieldVal))
    (s : String) (h : dictGet fields (priceKey type_) = .strV s)
    (hf : startsWithDollar s = true) :
    apply_pricing_rules type_ fields = fields :=
  apply_rules_formatted type_ fields s h hf

/-- C6 (amended) witness: comic with an already-formatted "$9.00". -/
theorem C6_witness :
    apply_pricing_rules "comic" [("Price", .strV "$9.00")] = [("Price", .strV "$9.00")] :=
  C6_amended_formatted_passthrough "comic" _ "$9.00" (by decide) (by decide)

/-- C7 counterexample: the categories record and misc have no floor in the
code — an input of "2" is returned as "$2.00", not raised to the claimed
$4.00 (record) or $3.00 (generic/misc) floors. -/
theorem C7_counterexample :
    apply_pricing_rules "record" [("Final Price", .strV "2")] =
      [("Final Price", .strV "$2.00")] ∧
    apply_pricing_rules "misc" [("Final Price", .strV "2")] =
      [("Final Price", .strV "$2.00")] ∧
    ("$2.00" : String) ≠ "$4.00" ∧ ("$2.00" : String) ≠ "$3.00" := by
  have hn : extractNumber "2".data = some 2 := by
    norm_num [extractNumber, show scanNumber "2".data = some (2, 0, 0) from by decide]
  have hr : ∀ t : String, t ≠ "comic" → t ≠ "card" →
      apply_pricing_rules t [("Final Price", .strV "2")] = [("Final Price", .strV "$2.00")] := by
    intro t h1 h2
    rw [apply_rules_of_str t _ "2" 2 (by simp [dictGet, priceKey, h1]) (by decide) hn]
    rw [applyFloors_other t 2 h1 h2]
    rw [show roundPolicy (2 : Rat) = 2 by norm_num [roundPolicy, pyRoundInt]]
    rw [show fmtFixed2 (2 : Rat) = "2.00" by
      rw [fmtFixed2, show pyRoundInt ((2 : Rat) * 100) = 200 by norm_num [pyRoundInt]]; decide]
    simp [dictSet, priceKey, h1]
  exact ⟨hr "record" (by decide) (by decide), hr "misc" (by decide) (by decide),
    by decide, by decide⟩

/-- C7 (amended): the only floors applied by `apply_pricing_rules` are
comic = $4.00 and card = $1.00 (each applied before rounding); every other
category has no floor and the parsed value goes straight to rounding. -/
theorem C7_amended_floors (q : Rat) :
    (q < 4 → apply_pricing_rules "comic" [("Price", .numV q)] = [("Price", .strV "$4.00")]) ∧
    (q < 1 → apply_pricing_rules "card" [("Final Price", .numV q)] =
      [("Final Price", .strV "$1.00")]) ∧
    (∀ t : String, t ≠ "comic" → t ≠ "card" →
      apply_pricing_rules t [("Final Price", .numV q)] =
        [("Final Price", .strV ("$" ++ fmtFixed2 (roundPolicy q)))]) := by
  refine ⟨?_, ?_, ?_⟩
  · intro h
    rw [apply_rules_of_num "comic" _ q (by simp [dictGet, priceKey])]
    rw [applyFloors_comic_low q h]
    rw [show roundPolicy (4 : Rat) = 4 by norm_num [roundPolicy, pyRoundInt]]
    rw [show fmtFixed2 (4 : Rat) = "4.00" by
      rw [fmtFixed2, show pyRoundInt ((4 : Rat) * 100) = 400 by norm_num [pyRoundInt]]; decide]
    simp [dictSet, priceKey]
  · intro h
    rw [apply_rules_of_num "card" _ q (by simp [dictGet, priceKey,
      show ("card" : String) ≠ "comic" from by decide])]
    rw [applyFloors_card_low q h]
    rw [show roundPolicy (1 : Rat) = 1 by norm_num [roundPolicy, pyRoundInt]]
    rw [show fmtFixed2 (1 : Rat) = "1.00" by
      rw [fmtFixed2, show pyRoundInt ((1 : Rat) * 100) = 100 by norm_num [pyRoundInt]]; decide]
    simp [dictSet, priceKey, show ("card" : String) ≠ "comic" from by decide]
  · intro t h1 h2
    rw [apply_rules_of_num t _ q (by simp [dictGet, priceKey, h1])]
    rw [applyFloors_other t q h1 h2]
    simp [dictSet, priceKey, h1]

/-- C7 (amended) witness: 0.50 is floored to $4.00 for comic and $1.00 for
card, and left unfloored (rounded to $0.50) for record. -/
theorem C7_witness :
    apply_pricing_rules "comic" [("Price", FieldVal.numV (1/2))] = [("Price", .strV "$4.00")] ∧
    apply_pricing_rules "card" [("Final Price", FieldVal.numV (1/2))] =
      [("Final Price", .strV "$1.00")] ∧
    apply_pricing_rules "record" [("Final Price", FieldVal.numV (1/2))] =
      [("Final Price", .strV "$0.50")] := by
  obtain ⟨h1, h2, h3⟩ := C7_amended_floors (1/2)
  refine ⟨h1 (by norm_num), h2 (by norm_num), ?_⟩
  rw [h3 "record" (by decide) (by decide)]
  rw [show roundPolicy ((1 : Rat)/2) = 1/2 by norm_num [roundPolicy, pyRoundInt]]
  rw [show fmtFixed2 ((1 : Rat)/2) = "0.50" by
    rw [fmtFixed2, show pyRoundInt ((1 : Rat)/2 * 100) = 50 by norm_num [pyRoundInt]]; decide]
  decide

/-- C8 counterexample: 1.25 is exactly midway between half-units; the code
rounds the doubled value half-to-even (`round(2.5) = 2`), giving "$1.00",
not the "$1.50" the round-half-up claim demands. -/
theorem C8_counterexample :
    apply_pricing_rules "misc" [("Final Price", .strV "1.25")] =
      [("Final Price", .strV "$1.00")] ∧
    ("$1.00" : String) ≠ "$1.50" := by
  have hn : extractNumber "1.25".data = some (5/4) := by
    norm_num [extractNumber, show scanNumber "1.25".data = some (1, 25, 2) from by decide]
  refine ⟨?_, by decide⟩
  rw [apply_rules_of_str "misc" _ "1.25" (5/4) (by decide) (by decide) hn]
  rw [applyFloors_other "misc" (5/4) (by decide) (by decide)]
  rw [show roundPolicy ((5 : Rat)/4) = 1 by norm_num [roundPolicy, pyRoundInt]]
  rw [show fmtFixed2 (1 : Rat) = "1.00" by
    rw [fmtFixed2, show pyRoundInt ((1 : Rat) * 100) = 100 by norm_num [pyRoundInt]]; decide]
  decide

/-- C8 (amended): after flooring, a value above 5 that is not whole rounds
up to the next whole unit, a whole value above 5 is unchanged, and a value
at most 5 rounds to the nearest half-unit with ties on the doubled value
resolved half-to-even (so 6.20 gives "$7.00" but 1.25 gives "$1.00", a
whole number, rather than 1.50). -/
theorem C8_amended_rounding (q : Rat) :
    (5 < q → q.den ≠ 1 →
      (∃ n : Int, roundPolicy q = (n : Rat)) ∧ q < roundPolicy q ∧ roundPolicy q < q + 1) ∧
    (5 < q → q.den = 1 → roundPolicy q = q) ∧
    (q ≤ 5 →
      (∃ n : Int, roundPolicy q = (n : Rat) / 2) ∧
      |roundPolicy q - q| ≤ 1/4 ∧
      (|roundPolicy q - q| = 1/4 → ∃ m : Int, roundPolicy q = (m : Rat))) ∧
    apply_pricing_rules "comic" [("Price", .strV "6.20")] = [("Price", .strV "$7.00")] ∧
    apply_pricing_rules "misc" [("Final Price", .strV "1.25")] =
      [("Final Price", .strV "$1.00")] := by
  refine ⟨?_, ?_, ?_, ?_, ?_⟩
  · intro h5 hden
    have hrp : roundPolicy q = (⌊q⌋ : Rat) + 1 := by
      rw [roundPolicy, if_pos h5, if_neg hden]
    have hne : (⌊q⌋ : Rat) ≠ q := by
      intro heq
      exact hden (by rw [← heq]; exact Rat.den_intCast _)
    have hlt : (⌊q⌋ : Rat) < q := lt_of_le_of_ne (Int.floor_le q) hne
    refine ⟨⟨⌊q⌋ + 1, by rw [hrp]; push_cast; ring⟩, ?_, ?_⟩
    · rw [hrp]; exact Int.lt_floor_add_one q
    · rw [hrp]; linarith
  · intro h5 hden
    rw [roundPolicy, if_pos h5, if_pos hden]
  · intro h
    have hrp : roundPolicy q = (pyRoundInt (q * 2) : Rat) / 2 := by
      rw [roundPolicy, if_neg (not_lt.mpr h)]
    have heq : (pyRoundInt (q * 2) : Rat) / 2 - q = ((pyRoundInt (q * 2) : Rat) - q * 2) / 2 := by
      ring
    have hnear := pyRoundInt_near (q * 2)
    refine ⟨⟨pyRoundInt (q * 2), hrp⟩, ?_, ?_⟩
    · rw [hrp, heq, abs_div, abs_two]
      linarith
    · intro htie
      rw [hrp, heq, abs_div, abs_two] at htie
      have habs : |(pyRoundInt (q * 2) : Rat) - q * 2| = 1/2 := by linarith
      have heven := pyRoundInt_tie_even (q * 2) habs
      obtain ⟨k, hk⟩ : ∃ k : Int, pyRoundInt (q * 2) = 2 * k := ⟨pyRoundInt (q * 2) / 2, by omega⟩
      exact ⟨k, by rw [hrp, hk]; push_cast; ring⟩
  · have hn : extractNumber "6.20".data = some (31/5) := by
      norm_num [extractNumber, show scanNumber "6.20".data = some (6, 20, 2) from by decide]
    rw [apply_rules_of_str "comic" _ "6.20" (31/5) (by decide) (by decide) hn]
    rw [applyFloors_high "comic" (31/5) (by norm_num) (by norm_num)]
    rw [show roundPolicy ((31 : Rat)/5) = 7 by norm_num [roundPolicy, pyRoundInt]]
    rw [show fmtFixed2 (7 : Rat) = "7.00" by
      rw [fmtFixed2, show pyRoundInt ((7 : Rat) * 100) = 700 by norm_num [pyRoundInt]]; decide]
    decide
  · have hn : extractNumber "1.25".data = some (5/4) := by
      norm_num [extractNumber, show scanNumber "1.25".data = some (1, 25, 2) from by decide]
    rw [apply_rules_of_str "misc" _ "1.25" (5/4) (by decide) (by decide) hn]
    rw [applyFloors_other "misc" (5/4) (by decide) (by decide)]
    rw [show roundPolicy ((5 : Rat)/4) = 1 by norm_num [roundPolicy, pyRoundInt]]
    rw [show fmtFixed2 (1 : Rat) = "1.00" by
      rw [fmtFixed2, show pyRoundInt ((1 : Rat) * 100) = 100 by norm_num [pyRoundInt]]; decide]
    decide

/-- C8 (amended) witness: 6.2 (above 5, not whole) rounds up to a whole
unit strictly between it and it plus one; 1.25 lands within a quarter unit
on a half-unit grid; and the concrete 6.20 run yields "$7.00". -/
theorem C8_witness :
    (∃ n : Int, roundPolicy (31/5 : Rat) = (n : Rat)) ∧
    (31/5 : Rat) < roundPolicy (31/5) ∧
    roundPolicy (31/5 : Rat) < 31/5 + 1 ∧
    (∃ n : Int, roundPolicy (5/4 : Rat) = (n : Rat) / 2) ∧
    |roundPolicy (5/4 : Rat) - 5/4| ≤ 1/4 ∧
    apply_pricing_rules "comic" [("Price", .strV "6.20")] = [("Price", .strV "$7.00")] := by
  have hA := C8_amended_rounding (31/5)
  have hB := C8_amended_rounding (5/4)
  obtain ⟨e1, l1, l2⟩ := hA.1 (by norm_num) (by norm_num)
  obtain ⟨e2, b2, -⟩ := hB.2.2.1 (by norm_num)
  exact ⟨e1, l1, l2, e2, b2, hA.2.2.2.1⟩

/-- C9: the normalizer strips `$` and `,`, parses the remainder as a
decimal, and returns it exactly when positive; "$1,234.50", the number
1234.5 and "1234.50" all give 1234.50, and non-numeric, zero or negative
inputs give absence. -/
theorem C9_normalizer_contract :
    _normalize_price (.str "$1,234.50") = some (2469/2) ∧
    _normalize_price (.num (2469/2)) = some (2469/2) ∧
    _normalize_price (.str "1234.50") = some (2469/2) ∧
    (∀ s : String, parseDecimal (pyStrip (stripMoneyChars s)) = Option.none →
        _normalize_price (.str s) = Option.none) ∧
    (∀ (s : String) (q : Rat), parseDecimal (pyStrip (stripMoneyChars s)) = some q → 0 < q →
        _normalize_price (.str s) = some q) ∧
    (∀ (s : String) (q : Rat), parseDecimal (pyStrip (stripMoneyChars s)) = some q → q ≤ 0 →
        _normalize_price (.str s) = Option.none) ∧
    (∀ q : Rat, 0 < q → _normalize_price (.num q) = some q) ∧
    (∀ q : Rat, q ≤ 0 → _normalize_price (.num q) = Option.none) ∧
    _normalize_price PyVal.none = Option.none := by
  refine ⟨?_, ?_, ?_, ?_, ?_, ?_, ?_, ?_, rfl⟩
  · exact normalize_str_of_scan "$1,234.50" (false, 1234, 50, 2, 0) (2469/2) (by decide)
      (by norm_num [decValue, applySign, ratPow10]) (by norm_num)
  · norm_num [_normalize_price]
  · exact normalize_str_of_scan "1234.50" (false, 1234, 50, 2, 0) (2469/2) (by decide)
      (by norm_num [decValue, applySign, ratPow10]) (by norm_num)
  · intro s h
    simp [_normalize_price, h]
  · intro s q h h0
    simp [_normalize_price, h, h0]
  · intro s q h h0
    simp [_normalize_price, h, not_lt.mpr h0]
  · intro q h0
    simp [_normalize_price, h0]
  · intro q h0
    simp [_normalize_price, not_lt.mpr h0]

/-- C9 witness: a non-numeric string, a negative numeric string, a negative
number and zero all normalize to absence. -/
theorem C9_witness :
    _normalize_price (.str "three dollars") = Option.none ∧
    _normalize_price (.str "-5") = Option.none ∧
    _normalize_price (.num (-3)) = Option.none ∧
    _normalize_price (.num 0) = Option.none := by
  obtain ⟨-, -, -, h4, -, h6, -, h8, -⟩ := C9_normalizer_contract
  refine ⟨h4 _ (by decide), h6 _ (-5) ?_ (by norm_num), h8 (-3) (by norm_num),
    h8 0 (by norm_num)⟩
  rw [parseDecimal, show scanDecimal ((pyStrip (pyStrip (stripMoneyChars "-5"))).data.filter
    (fun c => c != '_')) = some (true, 5, 0, 0, 0) from by decide]
  norm_num [decValue, applySign, ratPow10]

/-- C10: for every category other than comic and card, a nonpositive
numeric price is not floored: the value goes straight to rounding and the
output string is a nonpositive amount (0 gives "$0.00" and -2 gives
"$-2.00"). -/
theorem C10_no_floor_nonpositive (t : String) (q : Rat)
    (h1 : t ≠ "comic") (h2 : t ≠ "card") (h3 : q ≤ 0) :
    apply_pricing_rules t [("Final Price", FieldVal.numV q)] =
      [("Final Price", .strV ("$" ++ fmtFixed2 ((pyRoundInt (q * 2) : Rat) / 2)))] ∧
    (pyRoundInt (q * 2) : Rat) / 2 ≤ 0 ∧
    apply_pricing_rules "record" [("Final Price", FieldVal.numV 0)] =
      [("Final Price", .strV "$0.00")] ∧
    apply_pricing_rules "record" [("Final Price", FieldVal.numV (-2))] =
      [("Final Price", .strV "$-2.00")] := by
  have hgen : ∀ (t' : String) (q' : Rat), t' ≠ "comic" → t' ≠ "card" →
      apply_pricing_rules t' [("Final Price", FieldVal.numV q')] =
        [("Final Price", .strV ("$" ++ fmtFixed2 (roundPolicy q')))] := by
    intro t' q' h1' h2'
    rw [apply_rules_of_num t' _ q' (by simp [dictGet, priceKey, h1'])]
    rw [applyFloors_other t' q' h1' h2']
    simp [dictSet, priceKey, h1']
  refine ⟨?_, ?_, ?_, ?_⟩
  · rw [hgen t q h1 h2, show roundPolicy q = (pyRoundInt (q * 2) : Rat) / 2 from by
      rw [roundPolicy, if_neg (not_lt.mpr (h3.trans (by norm_num)))]]
  · have hn := pyRoundInt_nonpos (q * 2) (by linarith)
    have hn' : ((pyRoundInt (q * 2) : Int) : Rat) ≤ 0 := by exact_mod_cast hn
    linarith
  · rw [hgen "record" 0 (by decide) (by decide),
      show roundPolicy (0 : Rat) = 0 by norm_num [roundPolicy, pyRoundInt],
      show fmtFixed2 (0 : Rat) = "0.00" by
        rw [fmtFixed2, show pyRoundInt ((0 : Rat) * 100) = 0 by norm_num [pyRoundInt]]; decide]
    decide
  · rw [hgen "record" (-2) (by decide) (by decide),
      show roundPolicy (-2 : Rat) = -2 by norm_num [roundPolicy, pyRoundInt],
      show fmtFixed2 (-2 : Rat) = "-2.00" by
        rw [fmtFixed2, show pyRoundInt ((-2 : Rat) * 100) = -200 by norm_num [pyRoundInt]];
        decide]
    decide

/-- C10 witness: category misc with the numeric value -2. -/
theorem C10_witness :
    apply_pricing_rules "misc" [("Final Price", FieldVal.numV (-2))] =
      [("Final Price", .strV ("$" ++ fmtFixed2 ((pyRoundInt ((-2 : Rat) * 2) : Rat) / 2)))] ∧
    (pyRoundInt ((-2 : Rat) * 2) : Rat) / 2 ≤ 0 := by
  have h := C10_no_floor_nonpositive "misc" (-2) (by decide) (by decide) (by norm_num)
  exact ⟨h.1, h.2.1⟩
